import Mathlib

/-!
Shallow embedding of the todo task tracker (Rust sources `task.rs`, `color.rs`,
`file_io.rs`) and verification of its specification.

Modelling conventions:
* Rust `NaiveDate` is modelled as a record of year/month/day naturals; its
  `Ord` instance is chronological, which for well-formed dates coincides with
  the lexicographic order on (year, month, day).
* The current local date (`Local::now`) is passed in as an explicit `today`
  parameter.
* Mutating operations take the task vector and the already-consumed argument
  iterator (a `List String`) and return the pair of the Rust `Result` value
  and the final state of the vector, mirroring the `&mut` parameter.
* The filesystem touched by `file_io.rs` is a map from slots (the primary
  file plus the numbered backup files `tasks.000` .. ) to optional contents;
  `rename` moves contents between slots, overwriting the destination.
  I/O failures and directory creation are outside the model.
* `serde_json` encoding is modelled at the JSON *value* level (an inductive
  tree), with the field layout produced by the derived instances for `Task`.
-/

namespace Todo

/-! ### Dates and colors -/

/-- Calendar date, standing in for `chrono::NaiveDate`. -/
structure Date where
  year : Nat
  month : Nat
  day : Nat
  deriving DecidableEq, Repr

/-- Chronological order on dates (the `Ord` instance of `NaiveDate`),
lexicographic on (year, month, day) for calendar dates. -/
def dateLe (a b : Date) : Bool :=
  decide (a.year < b.year ∨ (a.year = b.year ∧
    (a.month < b.month ∨ (a.month = b.month ∧ a.day ≤ b.day))))

/-- The five color tags of `color.rs`, in declaration order. -/
inductive Color where
  | Red
  | Yellow
  | Green
  | Blue
  | Purple
  deriving DecidableEq, Repr

/-- Ordinal of a color in the declaration order used by the derived
`Ord` instance (`Red < Yellow < Green < Blue < Purple`). -/
def colorOrd : Color → Nat
  | .Red => 0
  | .Yellow => 1
  | .Green => 2
  | .Blue => 3
  | .Purple => 4

/-- Derived `Ord` comparison of `Color` as a boolean `≤`. -/
def colorLe (a b : Color) : Bool := decide (colorOrd a ≤ colorOrd b)

/-- Rust `Option<NaiveDate>` derived order: `None` is less than `Some`,
and two `Some`s compare by the payload. -/
def optDateLe : Option Date → Option Date → Bool
  | none, _ => true
  | some _, none => false
  | some a, some b => dateLe a b

/-- Rust `Option<Color>` derived order: `None` is less than `Some`,
and two `Some`s compare by the payload. -/
def optColorLe : Option Color → Option Color → Bool
  | none, _ => true
  | some _, none => false
  | some a, some b => colorLe a b

/-! ### The task record (`task.rs`) -/

/-- The `Task` struct of `task.rs`. -/
structure Task where
  name : String
  creation_date : Date
  due_date : Option Date
  color : Option Color
  note : String
  deriving DecidableEq, Repr

/-- `Task::new`: the current local date is the explicit `today` argument. -/
def Task.new (today : Date) (name : String) : Task :=
  { name := name, creation_date := today, due_date := none,
    color := none, note := "" }

/-- The `ArgError` enum of `task.rs`. -/
inductive ArgError where
  | ArgMissing (s : String)
  | TooManyArgs (s : String)
  | InvalidTaskId (s : String)
  | TaskNotFound
  | IncorrectDateFormat
  | InvalidColor (s : String)
  deriving DecidableEq, Repr

/-! ### Integer parsing (Rust `str::parse::<usize>`) -/

/-- Numeric value of a digit character. -/
def digitVal (c : Char) : Nat := c.toNat - 48

/-- Value of a digit string read most-significant-first, with accumulator. -/
def digitsToNatAux (acc : Nat) (cs : List Char) : Nat :=
  cs.foldl (fun a c => 10 * a + digitVal c) acc

/-- Value of a digit string read most-significant-first. -/
def digitsToNat (cs : List Char) : Nat := digitsToNatAux 0 cs

/-- Parse a nonempty all-digit character list into a natural number. -/
def parseDigits (cs : List Char) : Option Nat :=
  if !cs.isEmpty && cs.all Char.isDigit then some (digitsToNat cs) else none

/-- Exclusive upper bound of `usize` on a 64-bit target. -/
def usizeBound : Nat := 2 ^ 64

/-- Rust `"…".parse::<usize>()`: an optional single leading `+`, then one or
more digits, with the value required to fit in `usize`. -/
def parseUsize (s : String) : Option Nat :=
  let cs := match s.data with
    | '+' :: rest => rest
    | cs => cs
  match parseDigits cs with
  | none => none
  | some n => if n < usizeBound then some n else none

/-! ### Argument handling (`task.rs`) -/

/-- `parse_task_id`: validate the id argument and return `task_id - 1`. -/
def parse_task_id (tasks : List Task) (task_id_opt : Option String) :
    Except ArgError Nat :=
  match task_id_opt with
  | none => .error (.ArgMissing "task id")
  | some task_id_string =>
    match parseUsize task_id_string with
    | none => .error (.InvalidTaskId task_id_string)
    | some task_id =>
      if task_id > tasks.length || task_id == 0 then
        .error .TaskNotFound
      else
        .ok (task_id - 1)

/-- `check_for_more_args`: the remaining arguments joined with spaces must be
the empty string. -/
def check_for_more_args (args : List String) : Except ArgError Unit :=
  let more_args := String.intercalate " " args
  if more_args = "" then .ok () else .error (.TooManyArgs more_args)

/-- In-place update of one vector element (`tasks[i] = f tasks[i]`). -/
def listModify (f : α → α) : Nat → List α → List α
  | _, [] => []
  | 0, a :: as => f a :: as
  | n + 1, a :: as => a :: listModify f n as

/-- Result of a mutating operation: the Rust `Result` value paired with the
final contents of the `&mut Vec<Task>` argument. -/
abbrev OpResult := Except ArgError Unit × List Task

/-! ### Task operations (`task.rs`) -/

/-- `create_task`: join the arguments into the task name, reject an empty
name, and append a fresh task. -/
def create_task (today : Date) (tasks : List Task) (args : List String) :
    OpResult :=
  if String.intercalate " " args = "" then
    (.error (.ArgMissing "task name"), tasks)
  else
    (.ok (), tasks ++ [Task.new today (String.intercalate " " args)])

/-- `rename_task`: validate the id, then unconditionally replace the name by
the remaining arguments joined with spaces. -/
def rename_task (tasks : List Task) (args : List String) : OpResult :=
  match parse_task_id tasks args.head? with
  | .error e => (.error e, tasks)
  | .ok task_id =>
    let name_new := String.intercalate " " args.tail
    (.ok (), listModify (fun t => { t with name := name_new }) task_id tasks)

/-- `delete_task`: validate the id and the absence of extra arguments, then
remove the task at that position. -/
def delete_task (tasks : List Task) (args : List String) : OpResult :=
  match parse_task_id tasks args.head? with
  | .error e => (.error e, tasks)
  | .ok task_id =>
    match check_for_more_args args.tail with
    | .error e => (.error e, tasks)
    | .ok _ => (.ok (), tasks.eraseIdx task_id)

/-- The color-token match of `set_task_color` (lines 265–291 of `task.rs`):
the five color names select a color, `"clear"` selects no color, and any
other token is an `InvalidColor` error. -/
def colorFromToken : String → Except ArgError (Option Color)
  | "red" => .ok (some .Red)
  | "yellow" => .ok (some .Yellow)
  | "green" => .ok (some .Green)
  | "blue" => .ok (some .Blue)
  | "purple" => .ok (some .Purple)
  | "clear" => .ok none
  | other => .error (.InvalidColor other)

/-- `set_task_color`: validate the id, look up the color token (`"clear"`
unsets the color, an unknown token is an `InvalidColor` error), check for
extra arguments, then store the color. -/
def set_task_color (tasks : List Task) (args : List String) : OpResult :=
  match parse_task_id tasks args.head? with
  | .error e => (.error e, tasks)
  | .ok task_id =>
    match args.tail.head? with
    | none => (.error (.ArgMissing "task name"), tasks)
    | some color_string =>
      match colorFromToken color_string with
      | .error e => (.error e, tasks)
      | .ok color =>
        match check_for_more_args args.tail.tail with
        | .error e => (.error e, tasks)
        | .ok _ =>
          (.ok (), listModify (fun t => { t with color := color }) task_id tasks)

/-- `add_note`: validate the id; the remaining arguments joined with spaces
are the note text.  `"clear"` resets the note; otherwise the text is appended,
preceded by a newline when the existing note is nonempty. -/
def add_note (tasks : List Task) (args : List String) : OpResult :=
  match parse_task_id tasks args.head? with
  | .error e => (.error e, tasks)
  | .ok task_id =>
    if String.intercalate " " args.tail = "clear" then
      (.ok (), listModify (fun t => { t with note := "" }) task_id tasks)
    else
      (.ok (), listModify
        (fun t => { t with note :=
          (if t.note = "" then "" else t.note ++ "\n") ++
            String.intercalate " " args.tail }) task_id tasks)

/-! ### Sorting (`sort_tasks` in `task.rs`) -/

/-- Key of the first sorting pass: the due date under the derived
`Option<NaiveDate>` order. -/
def leDue (a b : Task) : Bool := optDateLe a.due_date b.due_date

/-- Key of the second sorting pass: `due_date.is_none()`, with
`false < true`. -/
def leDueNone (a b : Task) : Bool := !a.due_date.isNone || b.due_date.isNone

/-- Key of the third sorting pass: the color under the derived
`Option<Color>` order. -/
def leColor (a b : Task) : Bool := optColorLe a.color b.color

/-- Key of the fourth sorting pass: `color.is_none()`, with `false < true`. -/
def leColorNone (a b : Task) : Bool := !a.color.isNone || b.color.isNone

/-- The four stable sorting passes of `sort_tasks`, in program order
(`slice::sort_by` / `sort_by_key` are stable sorts). -/
def sortPipeline (tasks : List Task) : List Task :=
  ((((tasks.mergeSort leDue).mergeSort leDueNone).mergeSort
    leColor).mergeSort leColorNone)

/-- `sort_tasks`: reject extra arguments, then run the four sorting passes. -/
def sort_tasks (tasks : List Task) (args : List String) : OpResult :=
  match check_for_more_args args with
  | .error e => (.error e, tasks)
  | .ok _ => (.ok (), sortPipeline tasks)

/-! ### Date strings (`chrono` `%Y-%m-%d` formatting and parsing) -/

/-- Split a character list on the `-` separator. -/
def splitOnDash : List Char → List (List Char)
  | [] => [[]]
  | c :: cs =>
    if c = '-' then
      [] :: splitOnDash cs
    else
      match splitOnDash cs with
      | [] => [[c]]
      | r :: rs => (c :: r) :: rs

/-- Parse `YYYY-MM-DD` characters into a date, checking the calendar field
ranges that `chrono` enforces. -/
def parseDateChars (cs : List Char) : Option Date :=
  match splitOnDash cs with
  | [ys, ms, ds] =>
    match parseDigits ys, parseDigits ms, parseDigits ds with
    | some y, some m, some d =>
      if 1 ≤ m ∧ m ≤ 12 ∧ 1 ≤ d ∧ d ≤ 31 then some ⟨y, m, d⟩ else none
    | _, _, _ => none
  | _ => none

/-- `NaiveDate::parse_from_str(s, "%Y-%m-%d")`. -/
def parseDateString (s : String) : Option Date := parseDateChars s.data

/-- `add_duedate`: validate the id, require a date argument, parse it as
`YYYY-MM-DD`, check for extra arguments, then store the due date. -/
def add_duedate (tasks : List Task) (args : List String) : OpResult :=
  match parse_task_id tasks args.head? with
  | .error e => (.error e, tasks)
  | .ok task_id =>
    match args.tail.head? with
    | none => (.error (.ArgMissing "date"), tasks)
    | some date_string =>
      match parseDateString date_string with
      | none => (.error .IncorrectDateFormat, tasks)
      | some due_date =>
        match check_for_more_args args.tail.tail with
        | .error e => (.error e, tasks)
        | .ok _ =>
          (.ok (), listModify
            (fun t => { t with due_date := some due_date }) task_id tasks)

/-- `show_task`: read-only; validate the id and the absence of extra
arguments (the formatted printing is presentation only). -/
def show_task (tasks : List Task) (args : List String) : Except ArgError Unit :=
  match parse_task_id tasks args.head? with
  | .error e => .error e
  | .ok _ =>
    match check_for_more_args args.tail with
    | .error e => .error e
    | .ok _ => .ok ()

/-! ### Filesystem model for `file_io.rs`

The persistence engine touches exactly one primary file (`tasks.json`) and
the backup files obtained from it by `set_extension("000")`, `"001"`, ….
The filesystem is modelled as a map from these slots to optional contents;
`rename` moves contents between slots, overwriting the destination. -/

/-- A file slot: the primary file or the numbered backup `tasks.nnn`. -/
inductive Slot where
  | primary
  | backup (i : Nat)
  deriving DecidableEq, Repr

/-- Filesystem state restricted to the slots the engine touches. -/
def FS (α : Type) := Slot → Option α

/-- Store `v` in slot `s` (a `None` value deletes the file). -/
def FS.write (fs : FS α) (s : Slot) (v : Option α) : FS α :=
  fun s2 => if s2 = s then v else fs s2

/-- A fresh path: no primary file, no backups. -/
def freshFS : FS α := fun _ => none

/-- The `FileError` enum of `file_io.rs` (payloads are I/O details outside
the model). -/
inductive FileError where
  | Deserialize
  | Serialize
  | Io
  | CreateDir
  | BackupMissing
  deriving DecidableEq, Repr

/-- One iteration of the rotation loop in `create_backup`: if backup `i`
exists, rename it to backup `i+1`. -/
def rotateStep (fs : FS α) (i : Nat) : FS α :=
  if (fs (.backup i)).isSome then
    (fs.write (.backup (i + 1)) (fs (.backup i))).write (.backup i) none
  else
    fs

/-- `create_backup`: for `i` from 9 down to 0 rename backup `i` to `i+1`,
then rename the primary file (when it exists) to backup `000`. -/
def create_backup (fs : FS α) : FS α :=
  let fs1 := ((List.range 10).reverse).foldl rotateStep fs
  if (fs1 .primary).isSome then
    (fs1.write (.backup 0) (fs1 .primary)).write .primary none
  else
    fs1

/-- The file-moving part of `save_file`: rotate the backups, then write the
new contents to the primary slot. -/
def saveContent (fs : FS α) (c : α) : FS α :=
  (create_backup fs).write .primary (some c)

/-- A sequence of saves (one per program invocation), oldest first. -/
def saveSeq (fs : FS α) (cs : List α) : FS α := cs.foldl saveContent fs

/-- One iteration of the shift loop in `roll_back_file` for `i ≥ 1`: if
backup `i` exists, rename it to backup `i-1`. -/
def shiftStep (fs : FS α) (i : Nat) : FS α :=
  if (fs (.backup i)).isSome then
    (fs.write (.backup (i - 1)) (fs (.backup i))).write (.backup i) none
  else
    fs

/-- The rotation loop of `create_backup` generalized to `n` slots:
`for i in (0..n).rev()`. -/
def rotFold (n : Nat) (fs : FS α) : FS α :=
  ((List.range n).reverse).foldl rotateStep fs

/-- The shift loop of `roll_back_file` generalized to `n` slots:
`for i in 1..n+1`. -/
def shFold (n : Nat) (fs : FS α) : FS α :=
  ((List.range n).map (fun i => i + 1)).foldl shiftStep fs

/-- `roll_back_file`: restore backup `000` over the primary file (failing
with `BackupMissing` when absent), then for `i` from 1 to 10 rename backup
`i` to backup `i-1`. -/
def roll_back_file (fs : FS α) : Except FileError (FS α) :=
  match fs (.backup 0) with
  | none => .error .BackupMissing
  | some c =>
    let fs1 := (fs.write .primary (some c)).write (.backup 0) none
    .ok (((List.range 10).map (fun i => i + 1)).foldl shiftStep fs1)

/-! ### JSON values and the derived `serde` (de)serialization of `Task` -/

/-- JSON values, at the level of the `serde_json` data model (numbers,
booleans and nested shapes not produced by this program are omitted). -/
inductive Json where
  | null
  | str (s : String)
  | arr (xs : List Json)
  | obj (fields : List (String × Json))

/-- Digit character of a value below ten. -/
def digitChar : Nat → Char
  | 0 => '0'
  | 1 => '1'
  | 2 => '2'
  | 3 => '3'
  | 4 => '4'
  | 5 => '5'
  | 6 => '6'
  | 7 => '7'
  | 8 => '8'
  | 9 => '9'
  | _ => '*'

/-- Decimal digits of a natural number, most significant first. -/
def natToChars (n : Nat) : List Char :=
  if _h : n < 10 then
    [digitChar n]
  else
    natToChars (n / 10) ++ [digitChar (n % 10)]
  decreasing_by
    exact Nat.div_lt_self (by omega) (by omega)

/-- Zero-pad a digit string on the left to width `w`. -/
def padZeros (w : Nat) (cs : List Char) : List Char :=
  List.replicate (w - cs.length) '0' ++ cs

/-- Characters of the `%Y-%m-%d` rendering of a date (`%Y` pads the year to
four digits, `%m` and `%d` to two). -/
def dateChars (d : Date) : List Char :=
  padZeros 4 (natToChars d.year) ++
    '-' :: (padZeros 2 (natToChars d.month) ++
      '-' :: padZeros 2 (natToChars d.day))

/-- The `%Y-%m-%d` rendering of a date, used by the `serde` instance of
`NaiveDate`. -/
def dateToString (d : Date) : String := String.mk (dateChars d)

/-- Variant name of a color, as serialized by the derived `Serialize`. -/
def colorName : Color → String
  | .Red => "Red"
  | .Yellow => "Yellow"
  | .Green => "Green"
  | .Blue => "Blue"
  | .Purple => "Purple"

/-- Inverse lookup of a color variant name, as accepted by the derived
`Deserialize`. -/
def colorFromName : String → Option Color
  | "Red" => some .Red
  | "Yellow" => some .Yellow
  | "Green" => some .Green
  | "Blue" => some .Blue
  | "Purple" => some .Purple
  | _ => none

/-- Serialization of one `Task` by the derived `Serialize` instance: an
object with the struct fields in declaration order. -/
def encodeTask (t : Task) : Json :=
  .obj [("name", .str t.name),
        ("creation_date", .str (dateToString t.creation_date)),
        ("due_date", match t.due_date with
          | none => .null
          | some d => .str (dateToString d)),
        ("color", match t.color with
          | none => .null
          | some c => .str (colorName c)),
        ("note", .str t.note)]

/-- Serialization of the whole vector: a JSON array. -/
def encodeTasks (ts : List Task) : Json := .arr (ts.map encodeTask)

/-- First-match field lookup in a JSON object. -/
def lookupField (fields : List (String × Json)) (key : String) : Option Json :=
  match fields with
  | [] => none
  | (k, v) :: rest => if k = key then some v else lookupField rest key

/-- Deserialization of an `Option` field: a missing field or an explicit
`null` is `None`; a string goes through the payload parser. -/
def decodeOptField (f : String → Option β) : Option Json → Option (Option β)
  | none => some none
  | some .null => some none
  | some (.str s) => (f s).map some
  | some _ => none

/-- Deserialization of one `Task` by the derived `Deserialize` instance. -/
def decodeTask (j : Json) : Option Task :=
  match j with
  | .obj fields =>
    match lookupField fields "name" with
    | some (.str name) =>
      match lookupField fields "creation_date" with
      | some (.str cds) =>
        match parseDateString cds with
        | some creation_date =>
          match decodeOptField parseDateString (lookupField fields "due_date") with
          | some due_date =>
            match decodeOptField colorFromName (lookupField fields "color") with
            | some color =>
              match lookupField fields "note" with
              | some (.str note) =>
                some ⟨name, creation_date, due_date, color, note⟩
              | _ => none
            | none => none
          | none => none
        | none => none
      | _ => none
    | _ => none
  | _ => none

/-- Deserialization of a list of serialized tasks; any element failure fails
the whole decode. -/
def decodeTaskList : List Json → Option (List Task)
  | [] => some []
  | j :: js =>
    match decodeTask j, decodeTaskList js with
    | some t, some ts => some (t :: ts)
    | _, _ => none

/-- Deserialization of the whole save file. -/
def decodeTasks : Json → Option (List Task)
  | .arr xs => decodeTaskList xs
  | _ => none

/-- `save_file`: serialize the vector, rotate the backups, and write the
encoding to the primary file (directory creation and I/O failures are
outside the model). -/
def save_file (fs : FS Json) (tasks : List Task) : FS Json :=
  saveContent fs (encodeTasks tasks)

/-- `load_tasks` as called from `main` with an empty initial vector: a
missing file yields the empty collection, otherwise the contents must
decode. -/
def load_tasks (fs : FS Json) : Except FileError (List Task) :=
  match fs .primary with
  | none => .ok []
  | some j =>
    match decodeTasks j with
    | some ts => .ok ts
    | none => .error .Deserialize

/-! ### Specification-side definitions

These definitions follow the wording of the specification (not the code)
and are used to compare the code's behavior against it. -/

/-- Rank of an optional color per the spec's composite key: colored tasks
(ordinals 0–4 in declaration order) come before uncolored ones (rank 5). -/
def colorRank : Option Color → Nat
  | none => 5
  | some c => colorOrd c

/-- Spec order on optional due dates: tasks with a due date come before
tasks without one; two present dates compare chronologically. -/
def dueKeyLe : Option Date → Option Date → Bool
  | some d1, some d2 => dateLe d1 d2
  | some _, none => true
  | none, some _ => false
  | none, none => true

/-- The spec's composite sort key as a boolean total preorder: color
presence, then color ordinal, then due-date presence, then due-date value. -/
def specLe (a b : Task) : Bool :=
  decide (colorRank a.color < colorRank b.color) ||
    (decide (colorRank a.color = colorRank b.color) && dueKeyLe a.due_date b.due_date)

/-- Two tasks tied under the composite key. -/
def specEquiv (a b : Task) : Bool := specLe a b && specLe b a

/-- Lexicographic refinement of a boolean preorder `le` by a tie-breaking
relation `lr`: strictly `le`-smaller wins, `le`-ties defer to `lr`. -/
def combine {α : Type} (le lr : α → α → Bool) (a b : α) : Bool :=
  le a b && (!le b a || lr a b)

/-- The always-true relation (tie-breaking base case). -/
def trueRel {α : Type} (_ _ : α) : Bool := true

/-- Number of backup generations present on the filesystem (only slots
`000`–`010` are ever created by the engine). -/
def numBackups (fs : FS α) : Nat :=
  ((List.range 11).filter (fun i => (fs (.backup i)).isSome)).length

/-- The backup-slot invariant that actually holds: no backup beyond
slot `010` ever exists. -/
def BackupBound (fs : FS α) : Prop := ∀ i, 11 ≤ i → fs (.backup i) = none

/-- Calendar field ranges enforced by `chrono` dates. -/
abbrev ValidDate (d : Date) : Prop :=
  1 ≤ d.month ∧ d.month ≤ 12 ∧ 1 ≤ d.day ∧ d.day ≤ 31

/-- A task whose dates are calendar dates (always true of `NaiveDate`). -/
def ValidTask (t : Task) : Prop :=
  ValidDate t.creation_date ∧ ∀ d, t.due_date = some d → ValidDate d

/-! ## Theorems -/

/-! ### Pointwise characterization of backup rotation and rollback -/

theorem rotateStep_primary (fs : FS α) (k : Nat) :
    (rotateStep fs k) .primary = fs .primary := by
  unfold rotateStep
  by_cases h : (fs (.backup k)).isSome <;> simp [h, FS.write]

theorem rotateStep_self (fs : FS α) (k : Nat) :
    (rotateStep fs k) (.backup k) = none := by
  unfold rotateStep
  cases h : fs (.backup k) with
  | none => simp [h]
  | some v => simp [h, FS.write]

theorem rotateStep_target (fs : FS α) (k : Nat) :
    (rotateStep fs k) (.backup (k + 1)) =
      if (fs (.backup k)).isSome then fs (.backup k) else fs (.backup (k + 1)) := by
  unfold rotateStep
  cases h : fs (.backup k) with
  | none => simp [h]
  | some v => simp [h, FS.write]

theorem rotateStep_other (fs : FS α) (k j : Nat) (h1 : j ≠ k) (h2 : j ≠ k + 1) :
    (rotateStep fs k) (.backup j) = fs (.backup j) := by
  unfold rotateStep
  by_cases h : (fs (.backup k)).isSome <;> simp [h, FS.write, h1, h2]

theorem shiftStep_primary (fs : FS α) (k : Nat) :
    (shiftStep fs k) .primary = fs .primary := by
  unfold shiftStep
  by_cases h : (fs (.backup k)).isSome <;> simp [h, FS.write]

theorem shiftStep_self (fs : FS α) (k : Nat) :
    (shiftStep fs k) (.backup k) = none := by
  unfold shiftStep
  cases h : fs (.backup k) with
  | none => simp [h]
  | some v => simp [h, FS.write]

theorem shiftStep_target (fs : FS α) (k : Nat) (hk : 1 ≤ k) :
    (shiftStep fs k) (.backup (k - 1)) =
      if (fs (.backup k)).isSome then fs (.backup k) else fs (.backup (k - 1)) := by
  unfold shiftStep
  cases h : fs (.backup k) with
  | none => simp [h]
  | some v =>
    have : k - 1 ≠ k := by omega
    simp [h, FS.write, this]

theorem shiftStep_other (fs : FS α) (k j : Nat) (h1 : j ≠ k) (h2 : j ≠ k - 1) :
    (shiftStep fs k) (.backup j) = fs (.backup j) := by
  unfold shiftStep
  by_cases h : (fs (.backup k)).isSome <;> simp [h, FS.write, h1, h2]

theorem rotFold_succ (n : Nat) (fs : FS α) :
    rotFold (n + 1) fs = rotFold n (rotateStep fs n) := by
  unfold rotFold
  rw [List.range_succ]
  simp

theorem shFold_succ (n : Nat) (fs : FS α) :
    shFold (n + 1) fs = shiftStep (shFold n fs) (n + 1) := by
  unfold shFold
  rw [List.range_succ]
  simp

/-- Full pointwise description of the rotation loop over slots `0..n-1`:
the primary file is untouched, backups `1..n-1` receive the former backup
one slot newer, backup `0` is freed, the top slot `n` is overwritten only
when slot `n-1` was occupied, and slots beyond `n` are untouched. -/
theorem rotFold_spec (n : Nat) : ∀ fs : FS α,
    (rotFold n fs) .primary = fs .primary ∧
    (∀ i, 1 ≤ i → i < n → (rotFold n fs) (.backup i) = fs (.backup (i - 1))) ∧
    (1 ≤ n → (rotFold n fs) (.backup 0) = none) ∧
    ((rotFold n fs) (.backup n) =
      if 1 ≤ n then
        (if (fs (.backup (n - 1))).isSome then fs (.backup (n - 1))
         else fs (.backup n))
      else fs (.backup n)) ∧
    (∀ i, n < i → (rotFold n fs) (.backup i) = fs (.backup i)) := by
  induction n with
  | zero =>
    intro fs
    refine ⟨rfl, by omega, by omega, by simp [rotFold], fun i _ => rfl⟩
  | succ n ih =>
    intro fs
    obtain ⟨ihA, ihB, ihC, ihD, ihE⟩ := ih (rotateStep fs n)
    rw [rotFold_succ]
    refine ⟨?_, ?_, ?_, ?_, ?_⟩
    · rw [ihA, rotateStep_primary]
    · intro i h1 h2
      by_cases hi : i < n
      · rw [ihB i h1 hi, rotateStep_other fs n (i - 1) (by omega) (by omega)]
      · have hin : i = n := by omega
        subst hin
        rw [ihD, if_pos h1, rotateStep_self fs i,
          rotateStep_other fs i (i - 1) (by omega) (by omega)]
        cases h : fs (.backup (i - 1)) <;> simp [h]
    · intro _
      by_cases hn : 1 ≤ n
      · exact ihC hn
      · have hn0 : n = 0 := by omega
        subst hn0
        simpa [rotFold] using rotateStep_self fs 0
    · rw [if_pos (by omega)]
      have := ihE (n + 1) (by omega)
      rw [this, rotateStep_target]
      have : (n + 1) - 1 = n := by omega
      rw [this]
    · intro i hi
      rw [ihE i (by omega), rotateStep_other fs n i (by omega) (by omega)]

/-- Full pointwise description of the shift loop over slots `1..n`, for a
state whose backup `0` is already freed: the primary file is untouched,
backups `0..n-1` receive the former backup one slot older, slot `n` is
freed, and slots beyond `n` are untouched. -/
theorem shFold_spec (n : Nat) : ∀ fs : FS α, fs (.backup 0) = none →
    (shFold n fs) .primary = fs .primary ∧
    (∀ i, i < n → (shFold n fs) (.backup i) = fs (.backup (i + 1))) ∧
    (1 ≤ n → (shFold n fs) (.backup n) = none) ∧
    (∀ i, n < i → (shFold n fs) (.backup i) = fs (.backup i)) := by
  induction n with
  | zero =>
    intro fs h0
    exact ⟨rfl, by omega, by omega, fun i _ => rfl⟩
  | succ n ih =>
    intro fs h0
    obtain ⟨ihA, ihB, ihC, ihD⟩ := ih fs h0
    rw [shFold_succ]
    refine ⟨?_, ?_, ?_, ?_⟩
    · rw [shiftStep_primary, ihA]
    · intro i hi
      by_cases hlt : i < n
      · rw [shiftStep_other _ _ i (by omega) (by omega), ihB i hlt]
      · have hin : i = n := by omega
        subst hin
        have htgt := shiftStep_target (shFold i fs) (i + 1) (by omega)
        have hn1 : (i + 1) - 1 = i := by omega
        rw [hn1] at htgt
        rw [htgt, ihD (i + 1) (by omega)]
        have hzero : (shFold i fs) (.backup i) = none := by
          by_cases hn : 1 ≤ i
          · exact ihC hn
          · have hi0 : i = 0 := by omega
            subst hi0
            simpa [shFold] using h0
        rw [hzero]
        cases h : fs (.backup (i + 1)) <;> simp [h]
    · intro _
      exact shiftStep_self _ _
    · intro i hi
      rw [shiftStep_other _ _ i (by omega) (by omega), ihD i (by omega)]

theorem create_backup_eq (fs : FS α) :
    create_backup fs =
      (if ((rotFold 10 fs) .primary).isSome then
        ((rotFold 10 fs).write (.backup 0) ((rotFold 10 fs) .primary)).write
          .primary none
      else rotFold 10 fs) := rfl

/-- After a save the primary slot holds the new contents. -/
theorem saveContent_primary (fs : FS α) (c : α) :
    (saveContent fs c) .primary = some c := by
  simp [saveContent, FS.write]

/-- After a save, backup `000` holds the former primary contents. -/
theorem saveContent_backup0 (fs : FS α) (c : α) :
    (saveContent fs c) (.backup 0) = fs .primary := by
  obtain ⟨hA, hB, hC, hD, hE⟩ := rotFold_spec 10 fs
  unfold saveContent
  rw [create_backup_eq]
  by_cases hp : ((rotFold 10 fs) .primary).isSome
  · simp only [if_pos hp]
    simp [FS.write, hA]
  · simp only [if_neg hp]
    simp only [FS.write]
    rw [if_neg (by simp), hC (by omega)]
    rw [hA] at hp
    cases h : fs .primary
    · rfl
    · rw [h] at hp
      simp at hp

/-- After a save, backups `001..009` hold the former backup one slot
newer. -/
theorem saveContent_backup_mid (fs : FS α) (c : α) (i : Nat)
    (h1 : 1 ≤ i) (h2 : i ≤ 9) :
    (saveContent fs c) (.backup i) = fs (.backup (i - 1)) := by
  obtain ⟨hA, hB, hC, hD, hE⟩ := rotFold_spec 10 fs
  unfold saveContent
  rw [create_backup_eq]
  by_cases hp : ((rotFold 10 fs) .primary).isSome
  · rw [if_pos hp]
    simp only [FS.write]
    rw [if_neg (by simp), if_neg (by simp),
      if_neg (show ¬(Slot.backup i = Slot.backup 0) by
        simp only [Slot.backup.injEq]
        omega)]
    exact hB i h1 (by omega)
  · rw [if_neg hp]
    simp only [FS.write]
    rw [if_neg (by simp)]
    exact hB i h1 (by omega)

/-- After a save, the oldest slot `010` is overwritten by the former slot
`009` exactly when the latter was occupied (so a full slot `010` is
evicted). -/
theorem saveContent_backup10 (fs : FS α) (c : α) :
    (saveContent fs c) (.backup 10) =
      if (fs (.backup 9)).isSome then fs (.backup 9) else fs (.backup 10) := by
  obtain ⟨hA, hB, hC, hD, hE⟩ := rotFold_spec 10 fs
  unfold saveContent
  rw [create_backup_eq]
  by_cases hp : ((rotFold 10 fs) .primary).isSome
  · rw [if_pos hp]
    simp only [FS.write]
    rw [if_neg (by simp), if_neg (by simp), if_neg (by simp)]
    simpa using hD
  · rw [if_neg hp]
    simp only [FS.write]
    rw [if_neg (by simp)]
    simpa using hD

/-- Saves never create a backup beyond slot `010`. -/
theorem saveContent_backup_high (fs : FS α) (c : α) (i : Nat) (h : 11 ≤ i) :
    (saveContent fs c) (.backup i) = fs (.backup i) := by
  obtain ⟨hA, hB, hC, hD, hE⟩ := rotFold_spec 10 fs
  unfold saveContent
  rw [create_backup_eq]
  by_cases hp : ((rotFold 10 fs) .primary).isSome
  · rw [if_pos hp]
    simp only [FS.write]
    rw [if_neg (by simp), if_neg (by simp),
      if_neg (show ¬(Slot.backup i = Slot.backup 0) by
        simp only [Slot.backup.injEq]
        omega)]
    exact hE i (by omega)
  · rw [if_neg hp]
    simp only [FS.write]
    rw [if_neg (by simp)]
    exact hE i (by omega)

/-- Rollback with no backup `000` fails with `BackupMissing` (and, being a
pure value, leaves the filesystem untouched). -/
theorem roll_back_none (fs : FS α) (h : fs (.backup 0) = none) :
    roll_back_file fs = .error .BackupMissing := by
  unfold roll_back_file
  rw [h]

/-- Rollback with backup `000` present: the explicit result state. -/
theorem roll_back_some (fs : FS α) (v : α) (h : fs (.backup 0) = some v) :
    roll_back_file fs =
      .ok (shFold 10 ((fs.write .primary (some v)).write (.backup 0) none)) := by
  unfold roll_back_file
  rw [h]
  rfl

/-- Pointwise description of a successful rollback: the primary file
receives backup `000`, backups `000..009` receive the former backup one
slot older, slot `010` is freed, and higher slots are untouched. -/
theorem roll_back_char (fs fs2 : FS α) (h : roll_back_file fs = .ok fs2) :
    fs2 .primary = fs (.backup 0) ∧
    (∀ i, i ≤ 9 → fs2 (.backup i) = fs (.backup (i + 1))) ∧
    fs2 (.backup 10) = none ∧
    (∀ i, 11 ≤ i → fs2 (.backup i) = fs (.backup i)) := by
  cases hv : fs (.backup 0) with
  | none => rw [roll_back_none fs hv] at h; cases h
  | some v =>
    rw [roll_back_some fs v hv] at h
    cases h
    set fs1 := (fs.write .primary (some v)).write (.backup 0) none with hfs1
    have h0 : fs1 (.backup 0) = none := by simp [hfs1, FS.write]
    obtain ⟨hA, hB, hC, hD⟩ := shFold_spec 10 fs1 h0
    refine ⟨?_, ?_, ?_, ?_⟩
    · rw [hA, hfs1]
      simp [FS.write, hv]
    · intro i hi
      rw [hB i (by omega), hfs1]
      simp only [FS.write]
      rw [if_neg (by simp [Slot.backup.injEq]), if_neg (by simp)]
    · exact hC (by omega)
    · intro i hi
      rw [hD i (by omega), hfs1]
      simp only [FS.write]
      rw [if_neg (by simp [Slot.backup.injEq]; omega), if_neg (by simp)]

/-- C1: on a fresh path, rotation is a no-op and the first save installs the
primary file and creates no backups; after saves of `S1, S2, S3`, one
rollback makes the primary contents `S2`, a second makes them `S1`, and a
third fails with `BackupMissing`. -/
theorem save3_rollback_behavior (α : Type) (S1 S2 S3 : α)
    (_h12 : S1 ≠ S2) (_h23 : S2 ≠ S3) (_h13 : S1 ≠ S3) :
    create_backup (freshFS : FS α) = freshFS ∧
    (saveContent (freshFS : FS α) S1) .primary = some S1 ∧
    (∀ i, (saveContent (freshFS : FS α) S1) (.backup i) = none) ∧
    ∃ fs4 fs5,
      roll_back_file
        (saveContent (saveContent (saveContent (freshFS : FS α) S1) S2) S3) =
          .ok fs4 ∧
      fs4 .primary = some S2 ∧
      roll_back_file fs4 = .ok fs5 ∧
      fs5 .primary = some S1 ∧
      roll_back_file fs5 = .error .BackupMissing := by
  set fs1 := saveContent (freshFS : FS α) S1 with hfs1
  set fs2 := saveContent fs1 S2 with hfs2
  set fs3 := saveContent fs2 S3 with hfs3
  have fresh_p : (freshFS : FS α) .primary = none := rfl
  have fresh_b : ∀ i, (freshFS : FS α) (.backup i) = none := fun _ => rfl
  have b1 : ∀ i, fs1 (.backup i) = none := by
    intro i
    rcases Nat.lt_or_ge i 1 with hi | hi
    · have : i = 0 := by omega
      subst this
      rw [hfs1, saveContent_backup0, fresh_p]
    · rcases Nat.lt_or_ge i 10 with hi2 | hi2
      · rw [hfs1, saveContent_backup_mid _ _ i (by omega) (by omega), fresh_b]
      · rcases Nat.lt_or_ge i 11 with hi3 | hi3
        · have : i = 10 := by omega
          subst this
          rw [hfs1, saveContent_backup10, fresh_b, fresh_b]
          simp
        · rw [hfs1, saveContent_backup_high _ _ i hi3, fresh_b]
  refine ⟨rfl, by rw [hfs1, saveContent_primary], b1, ?_⟩
  have p1 : fs1 .primary = some S1 := by rw [hfs1, saveContent_primary]
  have p2 : fs2 .primary = some S2 := by rw [hfs2, saveContent_primary]
  have f2b0 : fs2 (.backup 0) = some S1 := by
    rw [hfs2, saveContent_backup0, p1]
  have f2b1 : fs2 (.backup 1) = none := by
    rw [hfs2, saveContent_backup_mid _ _ 1 (by omega) (by omega), b1]
  have f2b2 : fs2 (.backup 2) = none := by
    rw [hfs2, saveContent_backup_mid _ _ 2 (by omega) (by omega), b1]
  have f3b0 : fs3 (.backup 0) = some S2 := by
    rw [hfs3, saveContent_backup0, p2]
  have f3b1 : fs3 (.backup 1) = some S1 := by
    rw [hfs3, saveContent_backup_mid _ _ 1 (by omega) (by omega)]
    simpa using f2b0
  have f3b2 : fs3 (.backup 2) = none := by
    rw [hfs3, saveContent_backup_mid _ _ 2 (by omega) (by omega)]
    simpa using f2b1
  have f3b3 : fs3 (.backup 3) = none := by
    rw [hfs3, saveContent_backup_mid _ _ 3 (by omega) (by omega)]
    simpa using f2b2
  have rb1 := roll_back_some fs3 S2 f3b0
  obtain ⟨c1, c2, _, _⟩ := roll_back_char fs3 _ rb1
  set fs4 := shFold 10 ((fs3.write .primary (some S2)).write (.backup 0) none)
  have f4p : fs4 .primary = some S2 := by rw [c1, f3b0]
  have f4b0 : fs4 (.backup 0) = some S1 := by
    rw [c2 0 (by omega)]
    exact f3b1
  have f4b1 : fs4 (.backup 1) = none := by
    rw [c2 1 (by omega)]
    exact f3b2
  have f4b2 : fs4 (.backup 2) = none := by
    rw [c2 2 (by omega)]
    exact f3b3
  have rb2 := roll_back_some fs4 S1 f4b0
  obtain ⟨d1, d2, _, _⟩ := roll_back_char fs4 _ rb2
  set fs5 := shFold 10 ((fs4.write .primary (some S1)).write (.backup 0) none)
  have f5p : fs5 .primary = some S1 := by rw [d1, f4b0]
  have f5b0 : fs5 (.backup 0) = none := by
    rw [d2 0 (by omega)]
    exact f4b1
  exact ⟨fs4, fs5, rb1, f4p, rb2, f5p, roll_back_none fs5 f5b0⟩

/-- C1 witness: the scenario at concrete contents `1, 2, 3`. -/
theorem save3_rollback_behavior_witness :
    create_backup (freshFS : FS Nat) = freshFS ∧
    (saveContent (freshFS : FS Nat) 1) .primary = some 1 ∧
    (∀ i, (saveContent (freshFS : FS Nat) 1) (.backup i) = none) ∧
    ∃ fs4 fs5,
      roll_back_file
        (saveContent (saveContent (saveContent (freshFS : FS Nat) 1) 2) 3) =
          .ok fs4 ∧
      fs4 .primary = some 2 ∧
      roll_back_file fs4 = .ok fs5 ∧
      fs5 .primary = some 1 ∧
      roll_back_file fs5 = .error .BackupMissing :=
  save3_rollback_behavior Nat 1 2 3 (by decide) (by decide) (by decide)

/-- Occupied backup slots grow by one per save (capped at the 11 slots
`000`–`010`), and the primary file stays occupied. -/
theorem saveSeq_occupied : ∀ (cs : List α) (fs : FS α) (k : Nat),
    (fs .primary).isSome = true →
    (∀ j, j < k → (fs (.backup j)).isSome = true) →
    ((saveSeq fs cs) .primary).isSome = true ∧
    ∀ j, j < min (k + cs.length) 11 →
      ((saveSeq fs cs) (.backup j)).isSome = true := by
  intro cs
  induction cs with
  | nil =>
    intro fs k hp hk
    exact ⟨hp, fun j hj => hk j (by simp at hj; omega)⟩
  | cons c cs ih =>
    intro fs k hp hk
    have hstep : saveSeq fs (c :: cs) = saveSeq (saveContent fs c) cs := by
      simp [saveSeq]
    rw [hstep]
    have hk2 : ∀ j, j < min (k + 1) 11 →
        ((saveContent fs c) (.backup j)).isSome = true := by
      intro j hj
      rcases Nat.lt_or_ge j 1 with hj0 | hj1
      · have : j = 0 := by omega
        subst this
        rw [saveContent_backup0]
        exact hp
      · rcases Nat.lt_or_ge j 10 with hj9 | hj10
        · rw [saveContent_backup_mid fs c j (by omega) (by omega)]
          exact hk (j - 1) (by omega)
        · have hj10e : j = 10 := by omega
          subst hj10e
          have h9 : (fs (.backup 9)).isSome = true := hk 9 (by omega)
          rw [saveContent_backup10, if_pos h9]
          exact h9
    obtain ⟨hp2, hb2⟩ := ih (saveContent fs c) (min (k + 1) 11)
      (by rw [saveContent_primary]; rfl) hk2
    refine ⟨hp2, fun j hj => hb2 j ?_⟩
    simp only [List.length_cons] at hj
    omega

/-- C3 counterexample: twelve consecutive saves starting from a fresh path
produce a reachable state with eleven backup generations (slots `000`
through `010` all occupied), so the code does not maintain "at most 10
backup generations at any time". -/
theorem backup_count_exceeds_ten :
    10 < numBackups (saveSeq (freshFS : FS Nat) (List.replicate 12 0)) := by
  have hstep : saveSeq (freshFS : FS Nat) (List.replicate 12 0) =
      saveSeq (saveContent freshFS 0) (List.replicate 11 0) := by
    rw [List.replicate_succ]
    simp [saveSeq]
  obtain ⟨hp, hb⟩ := saveSeq_occupied (List.replicate 11 (0 : Nat))
    (saveContent (freshFS : FS Nat) 0) 0
    (by rw [saveContent_primary]; rfl) (by omega)
  rw [hstep]
  have hall : ∀ j, j < 11 →
      ((saveSeq (saveContent (freshFS : FS Nat) 0) (List.replicate 11 0))
        (.backup j)).isSome = true := by
    intro j hj
    exact hb j (by simpa using hj)
  have : numBackups (saveSeq (saveContent (freshFS : FS Nat) 0)
      (List.replicate 11 0)) = 11 := by
    unfold numBackups
    rw [List.filter_eq_self.mpr]
    · simp
    · intro a ha
      exact hall a (List.mem_range.mp ha)
  omega

/-- C3 (amended): saves and rollbacks never create a backup beyond slot
`010`, so at most **11** backup generations (suffixes `000` newest through
`010` oldest) exist at any time; and a save with slot `009` occupied
overwrites slot `010` with the contents of `009`, evicting the oldest
generation. -/
theorem backup_slot_invariant (α : Type) :
    BackupBound (freshFS : FS α) ∧
    (∀ (fs : FS α) (c : α), BackupBound fs → BackupBound (saveContent fs c)) ∧
    (∀ (fs fs2 : FS α), BackupBound fs → roll_back_file fs = .ok fs2 →
      BackupBound fs2) ∧
    (∀ fs : FS α, numBackups fs ≤ 11) ∧
    (∀ (fs : FS α) (c : α), (fs (.backup 9)).isSome = true →
      (saveContent fs c) (.backup 10) = fs (.backup 9)) := by
  refine ⟨fun i _ => rfl, ?_, ?_, ?_, ?_⟩
  · intro fs c hfs i hi
    rw [saveContent_backup_high fs c i hi]
    exact hfs i hi
  · intro fs fs2 hfs hrb i hi
    obtain ⟨_, _, _, hhigh⟩ := roll_back_char fs fs2 hrb
    rw [hhigh i hi]
    exact hfs i hi
  · intro fs
    calc numBackups fs ≤ (List.range 11).length := List.length_filter_le _ _
      _ = 11 := by simp
  · intro fs c h9
    rw [saveContent_backup10, if_pos h9]

/-- C3 amended-claim witness: concrete instances of the bound and the
eviction, at a filesystem holding backup `009` with contents `7`. -/
theorem backup_slot_invariant_witness :
    BackupBound (saveContent (freshFS : FS Nat) 0) ∧
    (saveContent ((freshFS : FS Nat).write (.backup 9) (some 7)) 0)
        (.backup 10) =
      ((freshFS : FS Nat).write (.backup 9) (some 7)) (.backup 9) :=
  ⟨(backup_slot_invariant Nat).2.1 freshFS 0 (fun i _ => rfl),
    (backup_slot_invariant Nat).2.2.2.2
      ((freshFS : FS Nat).write (.backup 9) (some 7)) 0 (by simp [FS.write])⟩

/-! ### Task-id validation -/

theorem parse_task_id_missing (tasks : List Task) :
    parse_task_id tasks none = .error (.ArgMissing "task id") := rfl

theorem parse_task_id_invalid (tasks : List Task) (s : String)
    (h : parseUsize s = none) :
    parse_task_id tasks (some s) = .error (.InvalidTaskId s) := by
  simp only [parse_task_id, h]

theorem parse_task_id_oob (tasks : List Task) (s : String) (n : Nat)
    (hp : parseUsize s = some n) (hn : n = 0 ∨ tasks.length < n) :
    parse_task_id tasks (some s) = .error .TaskNotFound := by
  simp only [parse_task_id, hp]
  rw [if_pos]
  simp only [Bool.or_eq_true, decide_eq_true_eq, beq_iff_eq]
  omega

theorem parse_task_id_ok (tasks : List Task) (s : String) (n : Nat)
    (hp : parseUsize s = some n) (h1 : 1 ≤ n) (h2 : n ≤ tasks.length) :
    parse_task_id tasks (some s) = .ok (n - 1) := by
  simp only [parse_task_id, hp]
  rw [if_neg]
  simp only [Bool.or_eq_true, decide_eq_true_eq, beq_iff_eq]
  omega

/-- C4 (amended): for every id-taking operation, an absent id argument
yields the missing-argument error, an id that `usize` parsing rejects
yields the invalid-id error, and an id that parses to a value outside
`[1, len]` (including `0`) yields the task-not-found error; the three error
values are pairwise distinct, and the failing operations leave the
collection untouched. -/
theorem id_argument_errors (tasks : List Task) :
    (rename_task tasks [] = (.error (.ArgMissing "task id"), tasks) ∧
     delete_task tasks [] = (.error (.ArgMissing "task id"), tasks) ∧
     set_task_color tasks [] = (.error (.ArgMissing "task id"), tasks) ∧
     add_duedate tasks [] = (.error (.ArgMissing "task id"), tasks) ∧
     add_note tasks [] = (.error (.ArgMissing "task id"), tasks) ∧
     show_task tasks [] = .error (.ArgMissing "task id")) ∧
    (∀ s rest, parseUsize s = none →
      rename_task tasks (s :: rest) = (.error (.InvalidTaskId s), tasks) ∧
      delete_task tasks (s :: rest) = (.error (.InvalidTaskId s), tasks) ∧
      set_task_color tasks (s :: rest) = (.error (.InvalidTaskId s), tasks) ∧
      add_duedate tasks (s :: rest) = (.error (.InvalidTaskId s), tasks) ∧
      add_note tasks (s :: rest) = (.error (.InvalidTaskId s), tasks) ∧
      show_task tasks (s :: rest) = .error (.InvalidTaskId s)) ∧
    (∀ s rest n, parseUsize s = some n → (n = 0 ∨ tasks.length < n) →
      rename_task tasks (s :: rest) = (.error .TaskNotFound, tasks) ∧
      delete_task tasks (s :: rest) = (.error .TaskNotFound, tasks) ∧
      set_task_color tasks (s :: rest) = (.error .TaskNotFound, tasks) ∧
      add_duedate tasks (s :: rest) = (.error .TaskNotFound, tasks) ∧
      add_note tasks (s :: rest) = (.error .TaskNotFound, tasks) ∧
      show_task tasks (s :: rest) = .error .TaskNotFound) ∧
    (∀ s t, ArgError.ArgMissing s ≠ .InvalidTaskId t ∧
      ArgError.ArgMissing s ≠ .TaskNotFound ∧
      ArgError.InvalidTaskId t ≠ .TaskNotFound) := by
  refine ⟨⟨rfl, rfl, rfl, rfl, rfl, rfl⟩, ?_, ?_, ?_⟩
  · intro s rest h
    have hp := parse_task_id_invalid tasks s h
    refine ⟨?_, ?_, ?_, ?_, ?_, ?_⟩ <;>
      first
        | (unfold rename_task; simp only [List.head?_cons]; rw [hp])
        | (unfold delete_task; simp only [List.head?_cons]; rw [hp])
        | (unfold set_task_color; simp only [List.head?_cons]; rw [hp])
        | (unfold add_duedate; simp only [List.head?_cons]; rw [hp])
        | (unfold add_note; simp only [List.head?_cons]; rw [hp])
        | (unfold show_task; simp only [List.head?_cons]; rw [hp])
  · intro s rest n hp hn
    have hp2 := parse_task_id_oob tasks s n hp hn
    refine ⟨?_, ?_, ?_, ?_, ?_, ?_⟩ <;>
      first
        | (unfold rename_task; simp only [List.head?_cons]; rw [hp2])
        | (unfold delete_task; simp only [List.head?_cons]; rw [hp2])
        | (unfold set_task_color; simp only [List.head?_cons]; rw [hp2])
        | (unfold add_duedate; simp only [List.head?_cons]; rw [hp2])
        | (unfold add_note; simp only [List.head?_cons]; rw [hp2])
        | (unfold show_task; simp only [List.head?_cons]; rw [hp2])
  · intro s t
    refine ⟨?_, ?_, ?_⟩ <;> simp

/-- C4 witness: the three error outcomes at concrete inputs (a one-task
collection, id strings `"x"` and `"7"`). -/
theorem id_argument_errors_witness :
    (rename_task [⟨"t", ⟨2024, 1, 1⟩, none, none, ""⟩] [] =
      (.error (.ArgMissing "task id"), [⟨"t", ⟨2024, 1, 1⟩, none, none, ""⟩]) ∧
     rename_task [⟨"t", ⟨2024, 1, 1⟩, none, none, ""⟩] ["x"] =
      (.error (.InvalidTaskId "x"), [⟨"t", ⟨2024, 1, 1⟩, none, none, ""⟩]) ∧
     rename_task [⟨"t", ⟨2024, 1, 1⟩, none, none, ""⟩] ["7"] =
      (.error .TaskNotFound, [⟨"t", ⟨2024, 1, 1⟩, none, none, ""⟩])) :=
  ⟨(id_argument_errors [⟨"t", ⟨2024, 1, 1⟩, none, none, ""⟩]).1.1,
   ((id_argument_errors [⟨"t", ⟨2024, 1, 1⟩, none, none, ""⟩]).2.1 "x" []
     (by decide)).1,
   ((id_argument_errors [⟨"t", ⟨2024, 1, 1⟩, none, none, ""⟩]).2.2.1 "7" [] 7
     (by decide) (by decide)).1⟩

/-- C4 counterexample: the id string `"0"` does not denote a positive
integer, yet the code reports `TaskNotFound` (the out-of-range error), not
`InvalidTaskId` as the claim's reading "not a positive integer → invalid
task id" requires. -/
theorem id_zero_yields_not_found :
    rename_task [⟨"t", ⟨2024, 1, 1⟩, none, none, ""⟩] ["0"] =
      (.error .TaskNotFound, [⟨"t", ⟨2024, 1, 1⟩, none, none, ""⟩]) ∧
    (ArgError.TaskNotFound ≠ .InvalidTaskId "0") := by
  constructor
  · rfl
  · simp

/-- C5: every mutating operation is atomic with respect to errors — on any
error result the collection is returned exactly as it was — and `setColor`
with a token outside the five color names and `"clear"` fails with the
invalid-color error, leaving the collection unmodified. -/
theorem mutation_error_atomic (today : Date) (tasks : List Task) :
    (∀ args e, (create_task today tasks args).1 = .error e →
      (create_task today tasks args).2 = tasks) ∧
    (∀ args e, (rename_task tasks args).1 = .error e →
      (rename_task tasks args).2 = tasks) ∧
    (∀ args e, (delete_task tasks args).1 = .error e →
      (delete_task tasks args).2 = tasks) ∧
    (∀ args e, (set_task_color tasks args).1 = .error e →
      (set_task_color tasks args).2 = tasks) ∧
    (∀ args e, (add_duedate tasks args).1 = .error e →
      (add_duedate tasks args).2 = tasks) ∧
    (∀ args e, (add_note tasks args).1 = .error e →
      (add_note tasks args).2 = tasks) ∧
    (∀ args e, (sort_tasks tasks args).1 = .error e →
      (sort_tasks tasks args).2 = tasks) ∧
    (∀ s tok rest n, parseUsize s = some n → 1 ≤ n → n ≤ tasks.length →
      tok ≠ "red" → tok ≠ "yellow" → tok ≠ "green" → tok ≠ "blue" →
      tok ≠ "purple" → tok ≠ "clear" →
      set_task_color tasks (s :: tok :: rest) =
        (.error (.InvalidColor tok), tasks)) := by
  refine ⟨?_, ?_, ?_, ?_, ?_, ?_, ?_, ?_⟩
  · intro args e h
    revert h
    unfold create_task
    split <;> intro h
    · rfl
    · simp at h
  · intro args e h
    revert h
    unfold rename_task
    split <;> intro h
    · rfl
    · simp at h
  · intro args e h
    revert h
    unfold delete_task
    split
    · intro _; rfl
    · split <;> intro h
      · rfl
      · simp at h
  · intro args e h
    revert h
    unfold set_task_color
    split
    · intro _; rfl
    · split
      · intro _; rfl
      · split
        · intro _; rfl
        · split <;> intro h
          · rfl
          · simp at h
  · intro args e h
    revert h
    unfold add_duedate
    split
    · intro _; rfl
    · split
      · intro _; rfl
      · split
        · intro _; rfl
        · split <;> intro h
          · rfl
          · simp at h
  · intro args e h
    revert h
    unfold add_note
    split
    · intro _; rfl
    · split <;> intro h <;> simp at h
  · intro args e h
    revert h
    unfold sort_tasks
    split <;> intro h
    · rfl
    · simp at h
  · intro s tok rest n hp h1 h2 hr hy hg hb hpur hc
    unfold set_task_color
    simp only [List.head?_cons, List.tail_cons]
    rw [parse_task_id_ok tasks s n hp h1 h2]
    have hcol : colorFromToken tok = .error (.InvalidColor tok) := by
      unfold colorFromToken
      split <;> simp_all
    rw [hcol]

/-- C5 witness: concrete error inputs leave a one-task collection
unchanged (`rename` with no arguments, `setColor` with token
`"orange"`). -/
theorem mutation_error_atomic_witness :
    (rename_task [⟨"t", ⟨2024, 1, 1⟩, none, none, ""⟩] []).2 =
      [⟨"t", ⟨2024, 1, 1⟩, none, none, ""⟩] ∧
    set_task_color [⟨"t", ⟨2024, 1, 1⟩, none, none, ""⟩] ["1", "orange"] =
      (.error (.InvalidColor "orange"), [⟨"t", ⟨2024, 1, 1⟩, none, none, ""⟩]) :=
  ⟨(mutation_error_atomic ⟨2024, 1, 1⟩ [⟨"t", ⟨2024, 1, 1⟩, none, none, ""⟩]).2.1
      [] (.ArgMissing "task id") rfl,
   (mutation_error_atomic ⟨2024, 1, 1⟩
      [⟨"t", ⟨2024, 1, 1⟩, none, none, ""⟩]).2.2.2.2.2.2.2
      "1" "orange" [] 1 (by decide) (by decide) (by decide) (by decide)
      (by decide) (by decide) (by decide) (by decide) (by decide)⟩

/-! ### Element update and note/name semantics -/

theorem intercalate_nil : String.intercalate " " [] = "" := rfl

theorem intercalate_single (a : String) : String.intercalate " " [a] = a := rfl

theorem listModify_length (f : α → α) :
    ∀ (i : Nat) (l : List α), (listModify f i l).length = l.length := by
  intro i l
  induction l generalizing i with
  | nil => cases i <;> rfl
  | cons a as ih =>
    cases i with
    | zero => rfl
    | succ k => simp [listModify, ih k]

theorem listModify_getElem_self (f : α → α) :
    ∀ (i : Nat) (l : List α), (listModify f i l)[i]? = (l[i]?).map f := by
  intro i l
  induction l generalizing i with
  | nil => cases i <;> rfl
  | cons a as ih =>
    cases i with
    | zero => simp [listModify]
    | succ k => simpa [listModify] using ih k

theorem listModify_map (f : α → α) (g : α → β) (hf : ∀ a, g (f a) = g a) :
    ∀ (i : Nat) (l : List α), (listModify f i l).map g = l.map g := by
  intro i l
  induction l generalizing i with
  | nil => cases i <;> rfl
  | cons a as ih =>
    cases i with
    | zero => simp [listModify, hf]
    | succ k => simp [listModify, ih k]

theorem add_note_text (tasks : List Task) (s text : String) (n : Nat)
    (hp : parseUsize s = some n) (h1 : 1 ≤ n) (h2 : n ≤ tasks.length)
    (hc : text ≠ "clear") :
    add_note tasks [s, text] =
      (.ok (), listModify
        (fun t => { t with note :=
          (if t.note = "" then "" else t.note ++ "\n") ++ text })
        (n - 1) tasks) := by
  unfold add_note
  simp only [List.head?_cons, List.tail_cons]
  rw [parse_task_id_ok tasks s n hp h1 h2]
  dsimp only
  rw [intercalate_single, if_neg hc]

theorem add_note_clear (tasks : List Task) (s : String) (n : Nat)
    (hp : parseUsize s = some n) (h1 : 1 ≤ n) (h2 : n ≤ tasks.length) :
    add_note tasks [s, "clear"] =
      (.ok (), listModify (fun t => { t with note := "" }) (n - 1) tasks) := by
  unfold add_note
  simp only [List.head?_cons, List.tail_cons]
  rw [parse_task_id_ok tasks s n hp h1 h2]
  dsimp only
  rw [intercalate_single, if_pos rfl]

/-- C7: with a valid id, `setNote(id, "clear")` empties the note whatever
its prior content; and starting from an empty note, `setNote(id, A)`
followed by `setNote(id, B)` yields the note `A ++ "\n" ++ B` — the second
text is appended on a new line. -/
theorem note_clear_and_append (tasks : List Task) (s : String) (n : Nat)
    (hp : parseUsize s = some n) (h1 : 1 ≤ n) (h2 : n ≤ tasks.length) :
    ((add_note tasks [s, "clear"]).1 = .ok () ∧
     (((add_note tasks [s, "clear"]).2)[n - 1]?).map Task.note = some "") ∧
    (∀ a b, a ≠ "clear" → a ≠ "" → b ≠ "clear" →
      ((tasks[n - 1]?).map Task.note) = some "" →
      (add_note (add_note tasks [s, a]).2 [s, b]).1 = .ok () ∧
      ((((add_note (add_note tasks [s, a]).2 [s, b]).2)[n - 1]?).map Task.note)
        = some (a ++ "\n" ++ b)) := by
  have hlt : n - 1 < tasks.length := by omega
  obtain ⟨t, ht⟩ : ∃ t, tasks[n - 1]? = some t :=
    ⟨tasks[n - 1], List.getElem?_eq_getElem hlt⟩
  constructor
  · rw [add_note_clear tasks s n hp h1 h2]
    refine ⟨rfl, ?_⟩
    rw [listModify_getElem_self, ht]
    rfl
  · intro a b ha hae hb hnote
    rw [ht] at hnote
    have htnote : t.note = "" := by
      simpa using hnote
    rw [add_note_text tasks s a n hp h1 h2 ha]
    have hlen : (listModify
        (fun t => { t with note :=
          (if t.note = "" then "" else t.note ++ "\n") ++ a })
        (n - 1) tasks).length = tasks.length := listModify_length _ _ _
    rw [add_note_text _ s b n hp h1 (by rw [hlen]; exact h2) hb]
    refine ⟨rfl, ?_⟩
    rw [listModify_getElem_self, listModify_getElem_self, ht]
    simp [htnote, hae]

/-- C7 witness: the two behaviors at a concrete one-task collection. -/
theorem note_clear_and_append_witness :
    ((add_note [⟨"t", ⟨2024, 1, 1⟩, none, none, "old"⟩] ["1", "clear"]).1 =
       .ok () ∧
     (((add_note [⟨"t", ⟨2024, 1, 1⟩, none, none, "old"⟩]
        ["1", "clear"]).2)[0]?).map Task.note = some "") ∧
    ((add_note (add_note [⟨"t", ⟨2024, 1, 1⟩, none, none, ""⟩]
        ["1", "A"]).2 ["1", "B"]).1 = .ok () ∧
     ((((add_note (add_note [⟨"t", ⟨2024, 1, 1⟩, none, none, ""⟩]
        ["1", "A"]).2 ["1", "B"]).2)[0]?).map Task.note) =
       some ("A" ++ "\n" ++ "B")) :=
  ⟨(note_clear_and_append [⟨"t", ⟨2024, 1, 1⟩, none, none, "old"⟩] "1" 1
      (by decide) (by decide) (by decide)).1,
   (note_clear_and_append [⟨"t", ⟨2024, 1, 1⟩, none, none, ""⟩] "1" 1
      (by decide) (by decide) (by decide)).2 "A" "B"
      (by decide) (by decide) (by decide) (by decide)⟩

/-- C8: `create` with an empty joined name fails with the missing-argument
error and leaves the collection unchanged; with a non-empty name it appends
exactly one task carrying that name, today's date, no due date, no color
and an empty note, whose 1-based id is the length of the new collection. -/
theorem create_semantics (today : Date) (tasks : List Task)
    (args : List String) :
    (String.intercalate " " args = "" →
      create_task today tasks args = (.error (.ArgMissing "task name"), tasks)) ∧
    (String.intercalate " " args ≠ "" →
      create_task today tasks args =
        (.ok (), tasks ++ [Task.new today (String.intercalate " " args)]) ∧
      (create_task today tasks args).2.length = tasks.length + 1 ∧
      ((create_task today tasks args).2)[tasks.length]? =
        some (Task.new today (String.intercalate " " args)) ∧
      (Task.new today (String.intercalate " " args)).name =
        String.intercalate " " args ∧
      (Task.new today (String.intercalate " " args)).creation_date = today ∧
      (Task.new today (String.intercalate " " args)).due_date = none ∧
      (Task.new today (String.intercalate " " args)).color = none ∧
      (Task.new today (String.intercalate " " args)).note = "") := by
  constructor
  · intro h
    unfold create_task
    rw [if_pos h]
  · intro h
    have he : create_task today tasks args =
        (.ok (), tasks ++ [Task.new today (String.intercalate " " args)]) := by
      unfold create_task
      rw [if_neg h]
    refine ⟨he, ?_, ?_, rfl, rfl, rfl, rfl, rfl⟩
    · rw [he]
      simp
    · rw [he]
      simp

/-- C8 witness: creating task `"X"` on the empty collection, and the
empty-name failure. -/
theorem create_semantics_witness :
    create_task ⟨2024, 1, 1⟩ [] [] =
      (.error (.ArgMissing "task name"), []) ∧
    create_task ⟨2024, 1, 1⟩ [] ["X"] =
      (.ok (), [] ++ [Task.new ⟨2024, 1, 1⟩ (String.intercalate " " ["X"])]) :=
  ⟨(create_semantics ⟨2024, 1, 1⟩ [] []).1 (by decide),
   ((create_semantics ⟨2024, 1, 1⟩ [] ["X"]).2 (by decide)).1⟩

/-- C10: `add_note` with a valid id and no text succeeds (unlike `color`
and `due`, which report a missing argument) and appends an empty line: a
nonempty note gains a trailing newline, an empty note stays empty. -/
theorem note_no_text (tasks : List Task) (s : String) (n : Nat)
    (hp : parseUsize s = some n) (h1 : 1 ≤ n) (h2 : n ≤ tasks.length) :
    (add_note tasks [s]).1 = .ok () ∧
    (((add_note tasks [s]).2)[n - 1]?).map Task.note =
      (tasks[n - 1]?).map
        (fun t => if t.note = "" then "" else t.note ++ "\n") ∧
    set_task_color tasks [s] = (.error (.ArgMissing "task name"), tasks) ∧
    add_duedate tasks [s] = (.error (.ArgMissing "date"), tasks) := by
  have hnote : add_note tasks [s] =
      (.ok (), listModify
        (fun t => { t with note :=
          (if t.note = "" then "" else t.note ++ "\n") ++
            String.intercalate " " [] }) (n - 1) tasks) := by
    unfold add_note
    simp only [List.head?_cons, List.tail_cons]
    rw [parse_task_id_ok tasks s n hp h1 h2]
    dsimp only
    rw [if_neg (by rw [intercalate_nil]; decide)]
  refine ⟨by rw [hnote], ?_, ?_, ?_⟩
  · rw [hnote]
    rw [listModify_getElem_self]
    cases hti : tasks[n - 1]? with
    | none => rfl
    | some t => simp [intercalate_nil]
  · unfold set_task_color
    simp only [List.head?_cons, List.tail_cons]
    rw [parse_task_id_ok tasks s n hp h1 h2]
    rfl
  · unfold add_duedate
    simp only [List.head?_cons, List.tail_cons]
    rw [parse_task_id_ok tasks s n hp h1 h2]
    rfl

/-- C10 witness: the empty-argument call at concrete one-task collections
with a nonempty and an empty note. -/
theorem note_no_text_witness :
    (((add_note [⟨"t", ⟨2024, 1, 1⟩, none, none, "x"⟩] ["1"]).2)[0]?).map
        Task.note =
      ([⟨"t", ⟨2024, 1, 1⟩, none, none, "x"⟩] :
        List Task)[0]?.map (fun t => if t.note = "" then "" else t.note ++ "\n") ∧
    set_task_color [⟨"t", ⟨2024, 1, 1⟩, none, none, "x"⟩] ["1"] =
      (.error (.ArgMissing "task name"), [⟨"t", ⟨2024, 1, 1⟩, none, none, "x"⟩]) :=
  ⟨(note_no_text [⟨"t", ⟨2024, 1, 1⟩, none, none, "x"⟩] "1" 1
      (by decide) (by decide) (by decide)).2.1,
   (note_no_text [⟨"t", ⟨2024, 1, 1⟩, none, none, "x"⟩] "1" 1
      (by decide) (by decide) (by decide)).2.2.1⟩

/-- Each sorting pass permutes, so the pipeline permutes. -/
theorem sortPipeline_perm (tasks : List Task) :
    List.Perm (sortPipeline tasks) tasks := by
  unfold sortPipeline
  exact ((((List.mergeSort_perm _ leColorNone).trans
    (List.mergeSort_perm _ leColor)).trans
    (List.mergeSort_perm _ leDueNone)).trans
    (List.mergeSort_perm _ leDue))

/-- C9: no operation mutates a task's `creation_date`: the index-targeted
operations keep the list of creation dates unchanged, `delete` returns a
sublist of the original task values, and `sort` returns a permutation of
the original task values. -/
theorem creation_date_invariant (tasks : List Task) (args : List String) :
    ((rename_task tasks args).2.map Task.creation_date =
      tasks.map Task.creation_date) ∧
    ((set_task_color tasks args).2.map Task.creation_date =
      tasks.map Task.creation_date) ∧
    ((add_duedate tasks args).2.map Task.creation_date =
      tasks.map Task.creation_date) ∧
    ((add_note tasks args).2.map Task.creation_date =
      tasks.map Task.creation_date) ∧
    (List.Sublist (delete_task tasks args).2 tasks) ∧
    (List.Perm (sort_tasks tasks args).2 tasks) := by
  refine ⟨?_, ?_, ?_, ?_, ?_, ?_⟩
  · unfold rename_task
    split
    · rfl
    · dsimp only
      apply listModify_map
      intro a
      rfl
  · unfold set_task_color
    split
    · rfl
    · split
      · rfl
      · split
        · rfl
        · split
          · rfl
          · dsimp only
            apply listModify_map
            intro a
            rfl
  · unfold add_duedate
    split
    · rfl
    · split
      · rfl
      · split
        · rfl
        · split
          · rfl
          · dsimp only
            apply listModify_map
            intro a
            rfl
  · unfold add_note
    split
    · rfl
    · split
      · dsimp only
        apply listModify_map
        intro a
        rfl
      · dsimp only
        apply listModify_map
        intro a
        rfl
  · unfold delete_task
    split
    · exact List.Sublist.refl _
    · split
      · exact List.Sublist.refl _
      · exact List.eraseIdx_sublist _ _
  · unfold sort_tasks
    split
    · exact List.Perm.refl _
    · exact sortPipeline_perm tasks

/-! ### The comparison relations of the sorting passes are total preorders -/

theorem dateLe_trans (a b c : Date) (h1 : dateLe a b = true)
    (h2 : dateLe b c = true) : dateLe a c = true := by
  simp only [dateLe, decide_eq_true_eq] at h1 h2 ⊢
  omega

theorem dateLe_total (a b : Date) : (dateLe a b || dateLe b a) = true := by
  simp only [dateLe, Bool.or_eq_true, decide_eq_true_eq]
  omega

theorem optDateLe_trans : ∀ a b c : Option Date, optDateLe a b = true →
    optDateLe b c = true → optDateLe a c = true := by
  intro a b c h1 h2
  cases a <;> cases b <;> cases c <;>
    simp only [optDateLe] at h1 h2 ⊢ <;>
    first
      | rfl
      | exact dateLe_trans _ _ _ h1 h2
      | cases h1
      | cases h2

theorem optDateLe_total : ∀ a b : Option Date,
    (optDateLe a b || optDateLe b a) = true := by
  intro a b
  cases a <;> cases b <;> simp only [optDateLe] <;>
    first
      | rfl
      | exact dateLe_total _ _

theorem colorLe_trans (a b c : Color) (h1 : colorLe a b = true)
    (h2 : colorLe b c = true) : colorLe a c = true := by
  simp only [colorLe, decide_eq_true_eq] at h1 h2 ⊢
  omega

theorem colorLe_total (a b : Color) : (colorLe a b || colorLe b a) = true := by
  simp only [colorLe, Bool.or_eq_true, decide_eq_true_eq]
  omega

theorem optColorLe_trans : ∀ a b c : Option Color, optColorLe a b = true →
    optColorLe b c = true → optColorLe a c = true := by
  intro a b c h1 h2
  cases a <;> cases b <;> cases c <;>
    simp only [optColorLe] at h1 h2 ⊢ <;>
    first
      | rfl
      | exact colorLe_trans _ _ _ h1 h2
      | cases h1
      | cases h2

theorem optColorLe_total : ∀ a b : Option Color,
    (optColorLe a b || optColorLe b a) = true := by
  intro a b
  cases a <;> cases b <;> simp only [optColorLe] <;>
    first
      | rfl
      | exact colorLe_total _ _

theorem boolOr_trans : ∀ x y z : Bool, (!x || y) = true → (!y || z) = true →
    (!x || z) = true := by decide

theorem boolOr_total : ∀ x y : Bool, ((!x || y) || (!y || x)) = true := by
  decide

theorem leDue_trans : ∀ a b c : Task, leDue a b = true → leDue b c = true →
    leDue a c = true :=
  fun _ _ _ => optDateLe_trans _ _ _

theorem leDue_total : ∀ a b : Task, (leDue a b || leDue b a) = true :=
  fun _ _ => optDateLe_total _ _

theorem leDueNone_trans : ∀ a b c : Task, leDueNone a b = true →
    leDueNone b c = true → leDueNone a c = true :=
  fun _ _ _ => boolOr_trans _ _ _

theorem leDueNone_total : ∀ a b : Task,
    (leDueNone a b || leDueNone b a) = true :=
  fun _ _ => boolOr_total _ _

theorem leColor_trans : ∀ a b c : Task, leColor a b = true →
    leColor b c = true → leColor a c = true :=
  fun _ _ _ => optColorLe_trans _ _ _

theorem leColor_total : ∀ a b : Task, (leColor a b || leColor b a) = true :=
  fun _ _ => optColorLe_total _ _

theorem leColorNone_trans : ∀ a b c : Task, leColorNone a b = true →
    leColorNone b c = true → leColorNone a c = true :=
  fun _ _ _ => boolOr_trans _ _ _

theorem leColorNone_total : ∀ a b : Task,
    (leColorNone a b || leColorNone b a) = true :=
  fun _ _ => boolOr_total _ _

/-! ### Stability of `mergeSort` (the semantics of `slice::sort_by`) -/

/-- A stable sort does not reorder the elements of one equivalence class of
the comparison: filtering by a class predicate commutes with sorting. -/
theorem filter_mergeSort {β : Type} (le : β → β → Bool)
    (htrans : ∀ a b c, le a b → le b c → le a c)
    (htotal : ∀ a b, le a b || le b a)
    (p : β → Bool) (hp : ∀ a b, p a = true → p b = true → le a b = true)
    (l : List β) :
    (l.mergeSort le).filter p = l.filter p := by
  have h1 : List.Sublist (l.filter p) l := List.filter_sublist l
  have hpair : (l.filter p).Pairwise (fun a b => le a b = true) := by
    rw [List.pairwise_iff_forall_sublist]
    intro a b hab
    have ha : a ∈ l.filter p := hab.subset (by simp)
    have hb2 : b ∈ l.filter p := hab.subset (by simp)
    exact hp a b (List.of_mem_filter ha) (List.of_mem_filter hb2)
  have h2 : List.Sublist (l.filter p) (l.mergeSort le) :=
    List.sublist_mergeSort htrans htotal hpair h1
  have h3 : List.Sublist (l.filter p) ((l.mergeSort le).filter p) := by
    have h4 := List.Sublist.filter p h2
    rwa [List.filter_eq_self.mpr (fun a ha => List.of_mem_filter ha)] at h4
  have hlen : ((l.mergeSort le).filter p).length = (l.filter p).length :=
    ((List.mergeSort_perm l le).filter p).length_eq
  exact (h3.eq_of_length hlen.symm).symm

/-- Sorting by `le` a list already pairwise-ordered by the tie-breaking
relation `lr` yields a list pairwise-ordered by the lexicographic
combination: `le`-ties inherit their `lr` order from the input. -/
theorem pairwise_mergeSort_combine {β : Type} (le lr : β → β → Bool)
    (htrans : ∀ a b c, le a b → le b c → le a c)
    (htotal : ∀ a b, le a b || le b a)
    (l : List β) (hl : l.Pairwise (fun a b => lr a b = true)) :
    (l.mergeSort le).Pairwise (fun a b => combine le lr a b = true) := by
  rw [List.pairwise_iff_forall_sublist]
  intro a b hab
  have hsorted := List.sorted_mergeSort htrans htotal l
  have hle : le a b = true := List.pairwise_iff_forall_sublist.mp hsorted hab
  by_cases hba : le b a = true
  · have haa : le a a = true := by
      have := htotal a a
      simpa using this
    have hpa : (le a a && le a a) = true := by simp [haa]
    have hclass : ∀ x y, (le a x && le x a) = true → (le a y && le y a) = true →
        le x y = true := by
      intro x y hx hy
      simp only [Bool.and_eq_true] at hx hy
      exact htrans x a y hx.2 hy.1
    have hfil := filter_mergeSort le htrans htotal
      (fun x => le a x && le x a) hclass l
    have h1 : List.Sublist ([a, b].filter (fun x => le a x && le x a))
        ((l.mergeSort le).filter (fun x => le a x && le x a)) :=
      List.Sublist.filter _ hab
    rw [hfil] at h1
    have h2 : [a, b].filter (fun x => le a x && le x a) = [a, b] := by
      simp [haa, hle, hba]
    rw [h2] at h1
    have h3 : List.Sublist [a, b] l := h1.trans (List.filter_sublist l)
    have hlr : lr a b = true := List.pairwise_iff_forall_sublist.mp hl h3
    simp [combine, hle, hba, hlr]
  · simp [combine, hle, hba]

/-! ### The four passes compute the spec's composite key -/

/-- The two due-date passes combine into the spec's due-date key. -/
theorem combineDue_eq_dueKeyLe (a b : Task) :
    combine leDueNone (combine leDue trueRel) a b =
      dueKeyLe a.due_date b.due_date := by
  rcases hd : a.due_date with _ | dd <;> rcases he : b.due_date with _ | ee <;>
    simp [combine, leDueNone, leDue, trueRel, optDateLe, dueKeyLe, hd, he]

/-- Every color ordinal is at most 4 (an uncolored rank is 5). -/
theorem colorOrd_le_four : ∀ c : Color, colorOrd c ≤ 4 := by
  intro c
  cases c <;> decide

/-- The full four-pass lexicographic combination equals the spec's
composite key. -/
theorem combineChain_eq_specLe (a b : Task) :
    combine leColorNone
      (combine leColor (combine leDueNone (combine leDue trueRel))) a b =
      specLe a b := by
  have hdue := combineDue_eq_dueKeyLe a b
  simp only [combine] at hdue ⊢
  rw [hdue]
  rcases ha : a.color with _ | cx <;> rcases hb : b.color with _ | cy
  · simp [leColorNone, leColor, optColorLe, specLe, colorRank, ha, hb]
  · cases cy <;>
      simp [leColorNone, leColor, optColorLe, specLe, colorRank, colorOrd,
        ha, hb]
  · cases cx <;>
      simp [leColorNone, leColor, optColorLe, specLe, colorRank, colorOrd,
        ha, hb]
  · cases cx <;> cases cy <;>
      simp [leColorNone, leColor, optColorLe, specLe, colorRank, colorOrd,
        colorLe, ha, hb]

/-- Tasks tied under the composite key are related by all four pass
relations (in both directions, but one direction suffices here). -/
theorem specEquiv_les (a b : Task) (h : specEquiv a b = true) :
    leDue a b = true ∧ leDueNone a b = true ∧ leColor a b = true ∧
      leColorNone a b = true := by
  have h1 : specLe a b = true ∧ specLe b a = true := by
    simpa [specEquiv] using h
  obtain ⟨hab, hba⟩ := h1
  simp only [specLe, Bool.or_eq_true, Bool.and_eq_true,
    decide_eq_true_eq] at hab hba
  rcases hab with hlt | ⟨heq, hk⟩
  · rcases hba with hlt2 | ⟨heq2, _⟩ <;> omega
  · rcases hba with hlt2 | ⟨heq2, hk2⟩
    · omega
    · refine ⟨?_, ?_, ?_, ?_⟩
      · rcases hd : a.due_date with _ | dd <;>
          rcases he : b.due_date with _ | ee <;>
          rw [hd, he] at hk hk2 <;>
          simp only [dueKeyLe] at hk hk2 <;>
          simp only [leDue, optDateLe, hd, he] <;>
          first
            | rfl
            | exact hk
            | exact absurd hk2 (by decide)
      · rcases hd : a.due_date with _ | dd <;>
          rcases he : b.due_date with _ | ee <;>
          rw [hd, he] at hk hk2 <;>
          simp only [dueKeyLe] at hk hk2 <;>
          simp only [leDueNone, hd, he] <;>
          first
            | rfl
            | exact absurd hk (by decide)
      · rcases hc : a.color with _ | cx <;> rcases hc2 : b.color with _ | cy <;>
          rw [hc, hc2] at heq <;>
          simp only [colorRank] at heq
        · simp [leColor, optColorLe, hc, hc2]
        · exact absurd heq (by have := colorOrd_le_four cy; omega)
        · exact absurd heq (by have := colorOrd_le_four cx; omega)
        · simp only [leColor, optColorLe, hc, hc2, colorLe,
            decide_eq_true_eq]
          omega
      · rcases hc : a.color with _ | cx <;> rcases hc2 : b.color with _ | cy <;>
          rw [hc, hc2] at heq <;>
          simp only [colorRank] at heq
        · simp [leColorNone, hc, hc2]
        · exact absurd heq (by have := colorOrd_le_four cy; omega)
        · simp [leColorNone, hc, hc2]
        · simp [leColorNone, hc, hc2]

/-- The pipeline output is pairwise ordered by the composite key. -/
theorem sortPipeline_pairwise (l : List Task) :
    (sortPipeline l).Pairwise (fun a b => specLe a b = true) := by
  have h0 : l.Pairwise (fun a b => trueRel a b = true) := by
    rw [List.pairwise_iff_forall_sublist]
    intro a b _
    rfl
  have h1 := pairwise_mergeSort_combine leDue trueRel
    leDue_trans leDue_total l h0
  have h2 := pairwise_mergeSort_combine leDueNone _
    leDueNone_trans leDueNone_total _ h1
  have h3 := pairwise_mergeSort_combine leColor _
    leColor_trans leColor_total _ h2
  have h4 := pairwise_mergeSort_combine leColorNone _
    leColorNone_trans leColorNone_total _ h3
  unfold sortPipeline
  exact h4.imp (fun hab => (combineChain_eq_specLe _ _) ▸ hab)

/-- The pipeline is stable: it does not reorder tasks tied under the
composite key. -/
theorem sortPipeline_stable (l : List Task) (p : Task → Bool)
    (hp : ∀ a b, p a = true → p b = true → specEquiv a b = true) :
    (sortPipeline l).filter p = l.filter p := by
  have hd : ∀ a b, p a = true → p b = true → leDue a b = true :=
    fun a b pa pb => (specEquiv_les a b (hp a b pa pb)).1
  have hdn : ∀ a b, p a = true → p b = true → leDueNone a b = true :=
    fun a b pa pb => (specEquiv_les a b (hp a b pa pb)).2.1
  have hc : ∀ a b, p a = true → p b = true → leColor a b = true :=
    fun a b pa pb => (specEquiv_les a b (hp a b pa pb)).2.2.1
  have hcn : ∀ a b, p a = true → p b = true → leColorNone a b = true :=
    fun a b pa pb => (specEquiv_les a b (hp a b pa pb)).2.2.2
  unfold sortPipeline
  rw [filter_mergeSort leColorNone leColorNone_trans leColorNone_total p hcn,
    filter_mergeSort leColor leColor_trans leColor_total p hc,
    filter_mergeSort leDueNone leDueNone_trans leDueNone_total p hdn,
    filter_mergeSort leDue leDue_trans leDue_total p hd]

/-- C2: `sort` (with no extra arguments) succeeds and reorders the
collection into the order of the spec's composite key — colored before
uncolored, colored ascending by ordinal, within each bucket dated before
undated, dated ascending by date — stably: it permutes the input, the
output is pairwise ordered by the composite key, and any set of mutually
tied tasks keeps its prior relative order. -/
theorem sort_tasks_composite_stable (tasks : List Task) :
    (sort_tasks tasks []).1 = .ok () ∧
    List.Perm (sort_tasks tasks []).2 tasks ∧
    ((sort_tasks tasks []).2).Pairwise (fun a b => specLe a b = true) ∧
    (∀ p : Task → Bool,
      (∀ a b, p a = true → p b = true → specEquiv a b = true) →
      ((sort_tasks tasks []).2).filter p = tasks.filter p) := by
  have he : sort_tasks tasks [] = (.ok (), sortPipeline tasks) := rfl
  refine ⟨by rw [he], ?_, ?_, ?_⟩
  · rw [he]
    exact sortPipeline_perm tasks
  · rw [he]
    exact sortPipeline_pairwise tasks
  · intro p hp
    rw [he]
    exact sortPipeline_stable tasks p hp

/-- C2 witness: stability at a concrete two-task collection, with the
class of uncolored, undated tasks. -/
theorem sort_tasks_composite_stable_witness :
    ((sort_tasks [⟨"b", ⟨2024, 1, 2⟩, none, none, ""⟩,
        ⟨"a", ⟨2024, 1, 1⟩, none, none, ""⟩] []).2).filter
      (fun t => t.color.isNone && t.due_date.isNone) =
    ([⟨"b", ⟨2024, 1, 2⟩, none, none, ""⟩,
      ⟨"a", ⟨2024, 1, 1⟩, none, none, ""⟩] : List Task).filter
      (fun t => t.color.isNone && t.due_date.isNone) :=
  (sort_tasks_composite_stable [⟨"b", ⟨2024, 1, 2⟩, none, none, ""⟩,
      ⟨"a", ⟨2024, 1, 1⟩, none, none, ""⟩]).2.2.2
    (fun t => t.color.isNone && t.due_date.isNone)
    (by
      intro a b ha hb
      simp only [Bool.and_eq_true, Option.isNone_iff_eq_none] at ha hb
      simp [specEquiv, specLe, colorRank, dueKeyLe, ha.1, ha.2, hb.1, hb.2])

/-! ### Decimal digit strings invert -/

theorem digitChar_isDigit (d : Nat) (h : d < 10) :
    (digitChar d).isDigit = true := by
  interval_cases d <;> decide

theorem digitChar_ne_dash (d : Nat) (h : d < 10) : digitChar d ≠ '-' := by
  interval_cases d <;> decide

theorem digitVal_digitChar (d : Nat) (h : d < 10) :
    digitVal (digitChar d) = d := by
  interval_cases d <;> decide

theorem natToChars_ne_nil (n : Nat) : natToChars n ≠ [] := by
  rw [natToChars]
  split
  · simp
  · simp

theorem natToChars_digits (n : Nat) :
    ∀ c ∈ natToChars n, c.isDigit = true ∧ c ≠ '-' := by
  induction n using Nat.strong_induction_on with
  | _ n ih =>
    rw [natToChars]
    split
    · rename_i h
      intro c hc
      simp only [List.mem_singleton] at hc
      subst hc
      exact ⟨digitChar_isDigit n h, digitChar_ne_dash n h⟩
    · rename_i h
      intro c hc
      rw [List.mem_append] at hc
      rcases hc with hc | hc
      · exact ih (n / 10) (Nat.div_lt_self (by omega) (by omega)) c hc
      · simp only [List.mem_singleton] at hc
        subst hc
        exact ⟨digitChar_isDigit _ (Nat.mod_lt _ (by omega)),
          digitChar_ne_dash _ (Nat.mod_lt _ (by omega))⟩

theorem digitsToNatAux_append (acc : Nat) (l1 l2 : List Char) :
    digitsToNatAux acc (l1 ++ l2) = digitsToNatAux (digitsToNatAux acc l1) l2 := by
  simp [digitsToNatAux, List.foldl_append]

theorem digitsToNatAux_natToChars (n : Nat) : ∀ acc : Nat,
    digitsToNatAux acc (natToChars n) =
      acc * 10 ^ (natToChars n).length + n := by
  induction n using Nat.strong_induction_on with
  | _ n ih =>
    intro acc
    rw [natToChars]
    split
    · rename_i h
      simp only [digitsToNatAux, List.foldl_cons, List.foldl_nil,
        List.length_singleton, pow_one, digitVal_digitChar n h]
      omega
    · rename_i h
      rw [digitsToNatAux_append, ih (n / 10) (Nat.div_lt_self (by omega) (by omega)) acc]
      simp only [digitsToNatAux, List.foldl_cons, List.foldl_nil,
        List.length_append, List.length_singleton,
        digitVal_digitChar _ (Nat.mod_lt n (by omega))]
      have hdm : 10 * (n / 10) + n % 10 = n := Nat.div_add_mod n 10
      calc 10 * (acc * 10 ^ (natToChars (n / 10)).length + n / 10) + n % 10
          = acc * (10 ^ (natToChars (n / 10)).length * 10) +
              (10 * (n / 10) + n % 10) := by ring
        _ = acc * 10 ^ ((natToChars (n / 10)).length + 1) + n := by
            rw [hdm, pow_succ]

theorem digitsToNatAux_replicate (k : Nat) : ∀ acc : Nat,
    digitsToNatAux acc (List.replicate k '0') = acc * 10 ^ k := by
  induction k with
  | zero =>
    intro acc
    simp [digitsToNatAux]
  | succ k ih =>
    intro acc
    rw [List.replicate_succ]
    have hstep : digitsToNatAux acc ('0' :: List.replicate k '0') =
        digitsToNatAux (10 * acc + digitVal '0') (List.replicate k '0') := rfl
    rw [hstep, ih]
    have h0 : digitVal '0' = 0 := rfl
    rw [h0, pow_succ]
    ring

theorem parseDigits_pad (w n : Nat) :
    parseDigits (padZeros w (natToChars n)) = some n := by
  unfold parseDigits padZeros
  rw [if_pos]
  · have : digitsToNat (List.replicate (w - (natToChars n).length) '0' ++
        natToChars n) = n := by
      unfold digitsToNat
      rw [digitsToNatAux_append, digitsToNatAux_replicate]
      have := digitsToNatAux_natToChars n (0 * 10 ^ (w - (natToChars n).length))
      simpa using this
    rw [this]
  · simp only [Bool.and_eq_true, Bool.not_eq_true', List.all_eq_true]
    constructor
    · rw [List.isEmpty_eq_false_iff_exists_mem]
      obtain ⟨c, hc⟩ := List.exists_mem_of_ne_nil _ (natToChars_ne_nil n)
      exact ⟨c, by simp [hc]⟩
    · intro c hc
      rw [List.mem_append] at hc
      rcases hc with hc | hc
      · rw [List.eq_of_mem_replicate hc]
        decide
      · exact (natToChars_digits n c hc).1

/-! ### Splitting on the date separator -/

theorem splitOnDash_no_dash (cs : List Char) (h : '-' ∉ cs) :
    splitOnDash cs = [cs] := by
  induction cs with
  | nil => rfl
  | cons c cs ih =>
    simp only [List.mem_cons, not_or] at h
    obtain ⟨h1, h2⟩ := h
    rw [splitOnDash, if_neg (fun he => h1 he.symm), ih h2]

theorem splitOnDash_append (a b : List Char) (h : '-' ∉ a) :
    splitOnDash (a ++ '-' :: b) = a :: splitOnDash b := by
  induction a with
  | nil => simp [splitOnDash]
  | cons c a ih =>
    simp only [List.mem_cons, not_or] at h
    obtain ⟨h1, h2⟩ := h
    rw [List.cons_append, splitOnDash, if_neg (fun he => h1 he.symm), ih h2]

theorem dash_not_mem_pad (w n : Nat) : '-' ∉ padZeros w (natToChars n) := by
  unfold padZeros
  intro h
  rw [List.mem_append] at h
  rcases h with h | h
  · have := List.eq_of_mem_replicate h
    simp at this
  · exact (natToChars_digits n '-' h).2 rfl

/-! ### The date codec inverts -/

theorem parseDateChars_dateChars (d : Date) (hd : ValidDate d) :
    parseDateChars (dateChars d) = some d := by
  obtain ⟨h1, h2, h3, h4⟩ := hd
  unfold parseDateChars dateChars
  rw [splitOnDash_append _ _ (dash_not_mem_pad 4 d.year),
    splitOnDash_append _ _ (dash_not_mem_pad 2 d.month),
    splitOnDash_no_dash _ (dash_not_mem_pad 2 d.day)]
  dsimp only
  rw [parseDigits_pad, parseDigits_pad, parseDigits_pad]
  dsimp only
  rw [if_pos ⟨h1, h2, h3, h4⟩]

theorem parseDateString_dateToString (d : Date) (hd : ValidDate d) :
    parseDateString (dateToString d) = some d := by
  unfold parseDateString dateToString
  exact parseDateChars_dateChars d hd

theorem colorFromName_colorName (c : Color) :
    colorFromName (colorName c) = some c := by
  cases c <;> rfl

/-! ### The derived task codec inverts -/

theorem decodeTask_encodeTask (t : Task) (ht : ValidTask t) :
    decodeTask (encodeTask t) = some t := by
  obtain ⟨hcd, hdd⟩ := ht
  obtain ⟨nm, cd, dd0, c0, nt⟩ := t
  cases dd0 with
  | none =>
    cases c0 with
    | none =>
      simp [encodeTask, decodeTask, lookupField, decodeOptField,
        parseDateString_dateToString cd hcd]
    | some c =>
      simp [encodeTask, decodeTask, lookupField, decodeOptField,
        parseDateString_dateToString cd hcd, colorFromName_colorName c]
  | some dd =>
    have hvd : ValidDate dd := hdd dd rfl
    cases c0 with
    | none =>
      simp [encodeTask, decodeTask, lookupField, decodeOptField,
        parseDateString_dateToString cd hcd,
        parseDateString_dateToString dd hvd]
    | some c =>
      simp [encodeTask, decodeTask, lookupField, decodeOptField,
        parseDateString_dateToString cd hcd,
        parseDateString_dateToString dd hvd, colorFromName_colorName c]

theorem decodeTaskList_map (C : List Task) (hwf : ∀ t ∈ C, ValidTask t) :
    decodeTaskList (C.map encodeTask) = some C := by
  induction C with
  | nil => rfl
  | cons t ts ih =>
    simp only [List.map_cons, decodeTaskList]
    rw [decodeTask_encodeTask t (hwf t (by simp)),
      ih (fun u hu => hwf u (by simp [hu]))]

theorem decodeTasks_encodeTasks (C : List Task)
    (hwf : ∀ t ∈ C, ValidTask t) :
    decodeTasks (encodeTasks C) = some C :=
  decodeTaskList_map C hwf

/-- C6: saving a collection of (calendar-)valid tasks and loading it back
yields the same collection, field for field — optional fields and
multi-line notes included. -/
theorem save_load_roundtrip (fs : FS Json) (C : List Task)
    (_hne : C ≠ []) (hwf : ∀ t ∈ C, ValidTask t) :
    load_tasks (save_file fs C) = .ok C := by
  unfold load_tasks save_file
  rw [saveContent_primary]
  dsimp only
  rw [decodeTasks_encodeTasks C hwf]

/-- C6 witness: the round trip at a concrete two-task collection with a
due date, a color, and a multi-line note present, and both optionals
absent on the second task. -/
theorem save_load_roundtrip_witness :
    load_tasks (save_file freshFS
      [⟨"a", ⟨2024, 1, 2⟩, some ⟨2025, 12, 31⟩, some .Red, "l1\nl2"⟩,
       ⟨"b", ⟨2024, 3, 4⟩, none, none, ""⟩]) =
      .ok [⟨"a", ⟨2024, 1, 2⟩, some ⟨2025, 12, 31⟩, some .Red, "l1\nl2"⟩,
       ⟨"b", ⟨2024, 3, 4⟩, none, none, ""⟩] :=
  save_load_roundtrip freshFS
    [⟨"a", ⟨2024, 1, 2⟩, some ⟨2025, 12, 31⟩, some .Red, "l1\nl2"⟩,
     ⟨"b", ⟨2024, 3, 4⟩, none, none, ""⟩]
    (by simp)
    (by
      intro t ht
      simp only [List.mem_cons, List.mem_singleton] at ht
      rcases ht with ht | ht | ht
      · subst ht
        refine ⟨by decide, ?_⟩
        intro d hd
        cases hd
        decide
      · subst ht
        exact ⟨by decide, fun d hd => by cases hd⟩
      · cases ht)

end Todo
